import Mathlib

/-!
Shallow embedding of the ebus event-envelope layer (Go package `ebus`).

Machine strings are modelled as `List Char`; Go's `strings.TrimSpace` and
`strings.ToLower` become explicit character-level functions.  Fallible Go
functions returning `(T, error)` become `Except`-valued Lean functions with
inductive error kinds mirroring the distinct `fmt.Errorf`/sentinel errors of
the source.  The process-wide factory registry (a Go map guarded by an
RWMutex) is modelled by explicit state passing: operations take the registry
value and return it (updated for `RegisterEventFactory`, untouched for the
read-only operations), mirroring the lock discipline of the source.
-/

deriving instance DecidableEq for Except

namespace Ebus

/-- Strings are modelled as lists of characters. -/
abbrev Str := List Char

/-- Whitespace predicate used by Go's `strings.TrimSpace` (`unicode.IsSpace`),
restricted to the Latin-1 range: TAB, LF, VT, FF, CR, SPACE, NEL, NBSP. -/
def isSpaceChar (c : Char) : Bool :=
  c.toNat = 9 || c.toNat = 10 || c.toNat = 11 || c.toNat = 12 ||
  c.toNat = 13 || c.toNat = 32 || c.toNat = 133 || c.toNat = 160

/-- Character lowering as performed by Go's `strings.ToLower` on ASCII:
letters `A`..`Z` are shifted down by 32, all other characters are kept. -/
def toLowerChar (c : Char) : Char :=
  if 65 ≤ c.toNat ∧ c.toNat ≤ 90 then Char.ofNat (c.toNat + 32) else c

/-- Go `strings.TrimSpace`: drop whitespace from both ends. -/
def trimSpace (s : Str) : Str :=
  ((s.dropWhile isSpaceChar).reverse.dropWhile isSpaceChar).reverse

/-- Go `strings.ToLower`: lower every character. -/
def toLowerStr (s : Str) : Str :=
  s.map toLowerChar

/-- Shared body of the three `Normalize` methods: trim surrounding
whitespace, then lowercase. -/
def normStr (s : Str) : Str :=
  toLowerStr (trimSpace s)

/-- Go `strings.HasPrefix pre s` (here: does `s` start with `pre`). -/
def startsWith : Str → Str → Bool
  | [], _ => true
  | _ :: _, [] => false
  | a :: as, b :: bs => a = b && startsWith as bs

/-- SchemaVersion is a string type (Go `type SchemaVersion string`). -/
abbrev SchemaVersion := Str

/-- EventSource is a string type (Go `type EventSource string`). -/
abbrev EventSource := Str

/-- EventType is a string type (Go `type EventType string`). -/
abbrev EventType := Str

/-- Go `SchemaVersion.Normalize`: trim then lowercase. -/
def SchemaVersion.Normalize (v : SchemaVersion) : SchemaVersion := normStr v

/-- Go `SchemaVersion.IsEmpty`: emptiness after normalization. -/
def SchemaVersion.IsEmpty (v : SchemaVersion) : Bool :=
  (SchemaVersion.Normalize v).isEmpty

/-- Go `EventSource.Normalize`: trim then lowercase. -/
def EventSource.Normalize (s : EventSource) : EventSource := normStr s

/-- Go `EventSource.IsEmpty`: emptiness after normalization. -/
def EventSource.IsEmpty (s : EventSource) : Bool :=
  (EventSource.Normalize s).isEmpty

/-- Go `EventType.Normalize`: trim then lowercase. -/
def EventType.Normalize (t : EventType) : EventType := normStr t

/-- Go `EventType.IsEmpty`: emptiness after normalization. -/
def EventType.IsEmpty (t : EventType) : Bool :=
  (EventType.Normalize t).isEmpty

/-- Event metadata (Go `Metadata`); `eventTime` is a Unix timestamp in
seconds, modelled as a mathematical integer (Go `int64`; no arithmetic close
to the overflow boundary occurs in any modelled operation). -/
structure Metadata where
  schemaVersion : SchemaVersion
  eventId : Str
  eventSource : EventSource
  eventType : EventType
  eventTime : Int
deriving DecidableEq, Repr

/-- Error kinds of `Metadata.Validate`, one per distinct error return. -/
inductive MetaErr where
  | emptyVersion
  | emptyId
  | emptySource
  | emptyType
  | nonPositiveTime
  | tooFarFuture
deriving DecidableEq, Repr

/-- Go `Metadata.Normalize`: normalize the three identity fields and trim
the event id; the timestamp is untouched. -/
def Metadata.Normalize (m : Metadata) : Metadata :=
  { schemaVersion := SchemaVersion.Normalize m.schemaVersion
    eventId := trimSpace m.eventId
    eventSource := EventSource.Normalize m.eventSource
    eventType := EventType.Normalize m.eventType
    eventTime := m.eventTime }

/-- Clock-skew tolerance in seconds (Go `maxFutureSecs`). -/
def maxFutureSecs : Int := 300

/-- Go `Metadata.Validate`.  The validator's current time (Go
`time.Now().Unix()`) is passed explicitly as `now`.  Go normalizes the
receiver in place before checking; the model returns the normalized
metadata on success. -/
def Metadata.Validate (now : Int) (m0 : Metadata) : Except MetaErr Metadata :=
  let m := m0.Normalize
  if SchemaVersion.IsEmpty m.schemaVersion then .error .emptyVersion
  else if m.eventId.isEmpty then .error .emptyId
  else if EventSource.IsEmpty m.eventSource then .error .emptySource
  else if EventType.IsEmpty m.eventType then .error .emptyType
  else if m.eventTime ≤ 0 then .error .nonPositiveTime
  else if m.eventTime > now + maxFutureSecs then .error .tooFarFuture
  else .ok m

/-- Conjunction of the four identity checks `Metadata.Validate` performs
(the checks that do not involve the timestamp). -/
def Metadata.identityOk (m : Metadata) : Bool :=
  !(SchemaVersion.IsEmpty m.schemaVersion) && !(trimSpace m.eventId).isEmpty &&
  !(EventSource.IsEmpty m.eventSource) && !(EventType.IsEmpty m.eventType)

/-- Result of calling a Go event factory `func() (Event, error)`: either a
fresh empty instance of the concrete event type `E`, or an error message. -/
abbrev EventFactory (E : Type) := Except Str E

/-- The factory registry (Go `eventFactoryRegistry`, a `map[string]EventFactory`),
modelled as an association list with distinct keys. -/
abbrev Registry (F : Type) := List (Str × F)

/-- Lookup in the registry map by exact key. -/
def assocFind {F : Type} : List (Str × F) → Str → Option F
  | [], _ => none
  | (k, f) :: rest, key => if k = key then some f else assocFind rest key

/-- Error kinds of the registry operations, one per distinct error return
(`ErrEventFactoryExists`, `ErrEventFactoryNotFound`, and the three
empty-field errors, plus the nil-factory rejection). -/
inductive RegErr where
  | emptyVersion
  | emptySource
  | emptyType
  | nilFactory
  | duplicateKey (key : Str)
  | notFound (key : Str)
deriving DecidableEq, Repr

/-- Go `buildEventFactoryKey`: join the three normalized components
with a separator. -/
def buildEventFactoryKey (v : SchemaVersion) (s : EventSource) (t : EventType) : Str :=
  v ++ [Char.ofNat 124] ++ s ++ [Char.ofNat 124] ++ t

/-- Go `RegisterEventFactory`.  The global map becomes an explicit state:
the function returns the registry unchanged on every failure and with the
new entry inserted on success.  A Go `nil` factory argument is `none`. -/
def RegisterEventFactory {F : Type} (reg : Registry F)
    (v0 : SchemaVersion) (s0 : EventSource) (t0 : EventType) (fac : Option F) :
    Except RegErr Unit × Registry F :=
  let v := SchemaVersion.Normalize v0
  let s := EventSource.Normalize s0
  let t := EventType.Normalize t0
  if SchemaVersion.IsEmpty v then (.error .emptyVersion, reg)
  else if EventSource.IsEmpty s then (.error .emptySource, reg)
  else if EventType.IsEmpty t then (.error .emptyType, reg)
  else
    match fac with
    | none => (.error .nilFactory, reg)
    | some f =>
      let key := buildEventFactoryKey v s t
      match assocFind reg key with
      | some _ => (.error (.duplicateKey key), reg)
      | none => (.ok (), reg ++ [(key, f)])

/-- Go `GetEventFactory`: read-only lookup of the registered factory. -/
def GetEventFactory {F : Type} (reg : Registry F)
    (v0 : SchemaVersion) (s0 : EventSource) (t0 : EventType) : Except RegErr F :=
  let v := SchemaVersion.Normalize v0
  let s := EventSource.Normalize s0
  let t := EventType.Normalize t0
  if SchemaVersion.IsEmpty v then .error .emptyVersion
  else if EventSource.IsEmpty s then .error .emptySource
  else if EventType.IsEmpty t then .error .emptyType
  else
    match assocFind reg (buildEventFactoryKey v s t) with
    | some f => .ok f
    | none => .error (.notFound (buildEventFactoryKey v s t))

/-- State-passing form of `GetEventFactory`: the Go function only reads the
global map under a shared lock, so the returned registry is the input
registry.  Decode threads the registry through this function, which makes
the decode path's frame condition on the registry an explicit statement. -/
def GetEventFactoryS {F : Type} (reg : Registry F)
    (v0 : SchemaVersion) (s0 : EventSource) (t0 : EventType) :
    Except RegErr F × Registry F :=
  (GetEventFactory reg v0 s0 t0, reg)

/-- Go `ExistsEventFactory`: never fails; empty inputs report `false`. -/
def ExistsEventFactory {F : Type} (reg : Registry F)
    (v0 : SchemaVersion) (s0 : EventSource) (t0 : EventType) : Bool :=
  let v := SchemaVersion.Normalize v0
  let s := EventSource.Normalize s0
  let t := EventType.Normalize t0
  if SchemaVersion.IsEmpty v then false
  else if EventSource.IsEmpty s then false
  else if EventType.IsEmpty t then false
  else (assocFind reg (buildEventFactoryKey v s t)).isSome

/-- Operations a concrete Go event type provides through the `Event`
interface.  `validate` returns the receiver as left after the call, because
Go's `Validate` may normalize the event's metadata in place; `withMeta`
models a write through the pointer returned by `Metadata()` (the publisher
validates that pointer's target in place before marshalling the event). -/
structure EventImpl (E : Type) where
  metadataOf : E → Option Metadata
  validate : Int → E → Except Str E
  withMeta : E → Metadata → E

/-- Envelope (Go `Envelope`) after the metadata pointer has been resolved:
metadata plus the marshalled payload of the concrete event, the payload
being abstracted by a type parameter `P`. -/
structure EnvelopeM (P : Type) where
  metadata : Metadata
  payload : P
deriving DecidableEq, Repr

/-- Transport bytes as seen by the decode path.  `empty` is a zero-length
byte slice; `malformed` is any byte string that fails to unmarshal as an
`Envelope`; `envelope md pl` is the JSON of an envelope whose `metadata`
field is `md` (`none` for JSON null) and whose `payload` field is `pl`
(`none` for a zero-length payload).  JSON marshalling of an envelope
followed by unmarshalling reproduces the envelope, so the wire form keeps
its fields verbatim. -/
inductive Bytes (P : Type) where
  | empty
  | malformed
  | envelope (md : Option Metadata) (pl : Option P)
deriving DecidableEq, Repr

/-- Emptiness test on transport bytes (Go `len(data) == 0`). -/
def isEmptyBytes {P : Type} : Bytes P → Bool
  | .empty => true
  | _ => false

/-- Go `json.Marshal` applied to an `Envelope` value: the wire bytes keep
the metadata and the (non-empty) payload verbatim. -/
def envelopeToBytes {P : Type} (env : EnvelopeM P) : Bytes P :=
  .envelope (some env.metadata) (some env.payload)

/-- Error kinds of the publisher's envelope-building path, one per distinct
error return of `publisher.Publish` up to the envelope marshalling. -/
inductive PubErr where
  | nilEvent
  | invalidEvent (msg : Str)
  | missingMetadata
  | invalidMetadata (e : MetaErr)
deriving DecidableEq, Repr

/-- Envelope-building portion of Go `publisher.Publish` (the topic check and
the transport call wrap this core and are independent of the envelope).
Mirrors the source order: nil check, `event.Validate()`, `event.Metadata()`
nil check, `metadata.Validate()` (which normalizes the metadata in place,
hence the `withMeta` write-back), `json.Marshal(event)` (total in the
model), envelope construction. -/
def publishEncode {E P : Type} (impl : EventImpl E) (marshalE : E → P)
    (now : Int) (eOpt : Option E) : Except PubErr (EnvelopeM P) :=
  match eOpt with
  | none => .error .nilEvent
  | some e =>
    match impl.validate now e with
    | .error msg => .error (.invalidEvent msg)
    | .ok e1 =>
      match impl.metadataOf e1 with
      | none => .error .missingMetadata
      | some m1 =>
        match Metadata.Validate now m1 with
        | .error me => .error (.invalidMetadata me)
        | .ok m2 =>
          let e2 := impl.withMeta e1 m2
          .ok { metadata := m2, payload := marshalE e2 }

/-- Error kinds of `subscriber.decodeEvent`, one per distinct error return
of the source in pipeline order. -/
inductive DecodeErr where
  | emptyData
  | envelopeDecodeFailed
  | missingMetadata
  | invalidMetadata (e : MetaErr)
  | emptyPayload
  | factoryLookupFailed (e : RegErr)
  | factoryFailed (msg : Str)
  | eventDecodeFailed (msg : Str)
  | invalidEvent (msg : Str)
  | missingEventMetadata
  | schemaVersionMismatch
  | eventIdMismatch
  | eventSourceMismatch
  | eventTypeMismatch
deriving DecidableEq, Repr

/-- Go `subscriber.decodeEvent`.  `unmarshalE p e0` models
`json.Unmarshal(p, e0)` populating the fresh instance `e0`.  The registry is
threaded through the factory lookup so that the decode path's effect on the
registry is part of the result.  The source's final comment states the
event time is deliberately not cross-checked; accordingly no comparison of
`eventTime` appears below. -/
def decodeEvent {E P : Type} (impl : EventImpl E)
    (unmarshalE : P → E → Except Str E) (reg : Registry (EventFactory E))
    (now : Int) (data : Bytes P) : Except DecodeErr E × Registry (EventFactory E) :=
  match data with
  | .empty => (.error .emptyData, reg)
  | .malformed => (.error .envelopeDecodeFailed, reg)
  | .envelope none _ => (.error .missingMetadata, reg)
  | .envelope (some md) pl =>
    match Metadata.Validate now md with
    | .error e => (.error (.invalidMetadata e), reg)
    | .ok md1 =>
      match pl with
      | none => (.error .emptyPayload, reg)
      | some p =>
        match GetEventFactoryS reg md1.schemaVersion md1.eventSource md1.eventType with
        | (.error e, reg1) => (.error (.factoryLookupFailed e), reg1)
        | (.ok fac, reg1) =>
          match fac with
          | .error msg => (.error (.factoryFailed msg), reg1)
          | .ok e0 =>
            match unmarshalE p e0 with
            | .error msg => (.error (.eventDecodeFailed msg), reg1)
            | .ok ev =>
              match impl.validate now ev with
              | .error msg => (.error (.invalidEvent msg), reg1)
              | .ok ev1 =>
                match impl.metadataOf ev1 with
                | none => (.error .missingEventMetadata, reg1)
                | some em =>
                  if em.schemaVersion ≠ md1.schemaVersion then
                    (.error .schemaVersionMismatch, reg1)
                  else if em.eventId ≠ md1.eventId then
                    (.error .eventIdMismatch, reg1)
                  else if em.eventSource ≠ md1.eventSource then
                    (.error .eventSourceMismatch, reg1)
                  else if em.eventType ≠ md1.eventType then
                    (.error .eventTypeMismatch, reg1)
                  else (.ok ev1, reg1)

/-- Outcome of running a piece of Go code that may panic: either a normal
return value, or an escaping panic carrying the recovered value's rendering. -/
inductive POut (α : Type) where
  | ok (a : α)
  | panicked (info : Str)
deriving DecidableEq, Repr

/-- Content type constant (Go `ContentTypeJson`). -/
def ContentTypeJson : Str := "application/json".data

/-- Delivered message as the wrapped subscription callback sees it
(Go `broker.Delivery`, restricted to the fields the wrapper reads:
`Topic`, `Message.Body`, `Message.ContentType`). -/
structure Delivery (P : Type) where
  topic : Str
  body : Bytes P
  contentType : Str
deriving DecidableEq, Repr

/-- Error kinds of the wrapped subscription callback, one per distinct
error return inside `wrapHandler` in the source. -/
inductive WrapErr where
  | nilDelivery
  | emptyTopic
  | emptyBody
  | unsupportedContentType (ct : Str)
  | decodeFailed (e : DecodeErr)
  | handlerFailed (id : Str) (msg : Str)
  | handlerFault (info : Str) (stack : Str)
deriving DecidableEq, Repr

/-- Event id read through `event.Metadata().EventId` for wrapping a handler
failure; decode guarantees the metadata is present, so the `none` branch is
unreachable on the path where this is used. -/
def eventIdOfE {E : Type} (impl : EventImpl E) (ev : E) : Str :=
  match impl.metadataOf ev with
  | some m => m.eventId
  | none => []

/-- Application handler as invoked by the wrapped callback: it receives the
topic and the decoded event and either returns normally (`ok none` for
success, `ok (some msg)` for a returned error) or panics. -/
abbrev Handler (E : Type) := Str → E → POut (Option Str)

/-- Tail of the wrapped callback after the content-type gate: run
`decodeEvent` on the message body and, on success, invoke the application
handler, wrapping its failure with the event id. -/
def decodeAndHandle {E P : Type} (impl : EventImpl E)
    (unmarshalE : P → E → Except Str E) (reg : Registry (EventFactory E))
    (now : Int) (handler : Handler E) (msgTopic : Str) (body : Bytes P) :
    POut (Option WrapErr) :=
  match (decodeEvent impl unmarshalE reg now body).1 with
  | .error e => .ok (some (.decodeFailed e))
  | .ok ev =>
    match handler msgTopic ev with
    | .panicked info => .panicked info
    | .ok none => .ok none
    | .ok (some msg) => .ok (some (.handlerFailed (eventIdOfE impl ev) msg))

/-- Body of the wrapped subscription callback before the deferred recover:
nil-delivery check, topic check, empty-body check, content-type gate, then
decode and handler invocation.  A panic raised by the handler escapes this
body as a `panicked` outcome. -/
def wrapBody {E P : Type} (impl : EventImpl E)
    (unmarshalE : P → E → Except Str E) (reg : Registry (EventFactory E))
    (now : Int) (handler : Handler E) (delivery : Option (Delivery P)) :
    POut (Option WrapErr) :=
  match delivery with
  | none => .ok (some .nilDelivery)
  | some d =>
    let msgTopic := trimSpace d.topic
    if msgTopic.isEmpty then .ok (some .emptyTopic)
    else if isEmptyBytes d.body then .ok (some .emptyBody)
    else
      let ct := toLowerStr (trimSpace d.contentType)
      if startsWith ContentTypeJson ct then
        decodeAndHandle impl unmarshalE reg now handler msgTopic d.body
      else .ok (some (.unsupportedContentType ct))

/-- The wrapped subscription callback registered by `Subscribe`: the body
guarded by the deferred `recover`, which converts an escaping panic into a
normally returned error carrying the recovered value and the captured stack
trace (`debug.Stack()`, passed in as `stack`).  The result is always a
normal return. -/
def wrapHandler {E P : Type} (impl : EventImpl E)
    (unmarshalE : P → E → Except Str E) (reg : Registry (EventFactory E))
    (now : Int) (handler : Handler E) (stack : Str)
    (delivery : Option (Delivery P)) : POut (Option WrapErr) :=
  match wrapBody impl unmarshalE reg now handler delivery with
  | .panicked info => .ok (some (.handlerFault info stack))
  | .ok r => .ok r

/-- Header key constants (Go `HeaderSchemaVersion` and friends). -/
def HeaderSchemaVersion : Str := "x-event-schema-version".data

/-- Header key for the event id. -/
def HeaderEventId : Str := "x-event-id".data

/-- Header key for the event source. -/
def HeaderEventSource : Str := "x-event-source".data

/-- Header key for the event type. -/
def HeaderEventType : Str := "x-event-type".data

/-- Header key for the event time. -/
def HeaderEventTime : Str := "x-event-time".data

/-- Decimal rendering of an integer (Go `strconv.FormatInt(i, 10)`). -/
def intDecStr (i : Int) : Str := (toString i).data

/-- Go `metadataToHeaders`: build the transport header mapping from the
metadata; a nil metadata argument (`none`) yields the empty mapping.  The
Go map with its five distinct literal keys is modelled as an association
list of the conditionally present entries. -/
def metadataToHeaders (mo : Option Metadata) : List (Str × Str) :=
  match mo with
  | none => []
  | some m =>
    (if SchemaVersion.IsEmpty m.schemaVersion then []
     else [(HeaderSchemaVersion, m.schemaVersion)]) ++
    (if m.eventId.isEmpty then [] else [(HeaderEventId, m.eventId)]) ++
    (if EventSource.IsEmpty m.eventSource then []
     else [(HeaderEventSource, m.eventSource)]) ++
    (if EventType.IsEmpty m.eventType then []
     else [(HeaderEventType, m.eventType)]) ++
    (if 0 < m.eventTime then [(HeaderEventTime, intDecStr m.eventTime)] else [])

/-- Rendering of a metadata validation error as the Go error message would
carry it; used by the concrete model event's `Validate`. -/
def MetaErr.render : MetaErr → Str
  | .emptyVersion => "schema version must not be empty".data
  | .emptyId => "event id must not be empty".data
  | .emptySource => "event source must not be empty".data
  | .emptyType => "event type must not be empty".data
  | .nonPositiveTime => "event time must be positive".data
  | .tooFarFuture => "event time too far in the future".data

/-- Concrete conforming event type used to instantiate the parametric
pipeline theorems: metadata plus one application field. -/
structure MEvent where
  meta : Metadata
  n : Nat
deriving DecidableEq, Repr

/-- The `Event` interface implementation of `MEvent`: `Metadata()` returns
the embedded metadata, `Validate()` validates (and normalizes) it, and the
metadata pointer write-back replaces the embedded metadata. -/
def mImpl : EventImpl MEvent :=
  { metadataOf := fun e => some e.meta
    validate := fun now e =>
      match Metadata.Validate now e.meta with
      | .ok m => .ok ⟨m, e.n⟩
      | .error err => .error (MetaErr.render err)
    withMeta := fun e m => ⟨m, e.n⟩ }

/-- JSON marshalling of `MEvent` is faithful, so the marshalled payload is
modelled as the event value itself. -/
def mMarshal : MEvent → MEvent := fun e => e

/-- JSON unmarshalling of an `MEvent` payload into a fresh instance
overwrites every field, so it returns the payload's value. -/
def mUnmarshal : MEvent → MEvent → Except Str MEvent := fun p _ => .ok p

/-- Concrete, already-normalized metadata value used to instantiate the
pipeline theorems. -/
def mdW : Metadata :=
  { schemaVersion := "v1".data, eventId := "id1".data, eventSource := "src".data,
    eventType := "user.created".data, eventTime := 900 }

/-- Blank instance produced by the concrete factory. -/
def e0W : MEvent := ⟨⟨[], [], [], [], 0⟩, 0⟩

/-- Concrete registry holding the factory for `(v1, src, user.created)`. -/
def regW : Registry (EventFactory MEvent) :=
  [(buildEventFactoryKey "v1".data "src".data "user.created".data, .ok e0W)]

/-- Self-reported metadata agreeing with `mdW` except for the event id and
the event time. -/
def emW2 : Metadata :=
  { schemaVersion := "v1".data, eventId := "id2".data, eventSource := "src".data,
    eventType := "user.created".data, eventTime := 555 }

/-- Self-reported metadata agreeing with `mdW` on all identity fields and
the id, but with a different event time. -/
def emW1 : Metadata :=
  { schemaVersion := "v1".data, eventId := "id1".data, eventSource := "src".data,
    eventType := "user.created".data, eventTime := 555 }

/-- Concrete event used in the witnesses. -/
def evW : MEvent := ⟨mdW, 7⟩

/-- Body of the witness deliveries: a well-formed envelope around `evW`. -/
def dBodyW : Bytes MEvent := .envelope (some mdW) (some evW)

/-- Witness delivery with content type `application/json`. -/
def dJsonW : Delivery MEvent := ⟨"orders".data, dBodyW, "application/json".data⟩

/-- Witness delivery with content type `text/plain`. -/
def dPlainW : Delivery MEvent := ⟨"orders".data, dBodyW, "text/plain".data⟩

/-- Witness delivery with content type `application/json; charset=utf-8`. -/
def dJsonCsW : Delivery MEvent :=
  ⟨"orders".data, dBodyW, "application/json; charset=utf-8".data⟩

/-- Handler that always panics with `boom`. -/
def panHandlerW : Handler MEvent := fun _ _ => .panicked "boom".data

/-- Handler that always succeeds. -/
def okHandlerW : Handler MEvent := fun _ _ => .ok none

theorem toNat_ofNat_small {n : Nat} (h : n < 55296) : (Char.ofNat n).toNat = n := by
  have hv : n.isValidChar := Or.inl h
  simp [Char.ofNat, hv, Char.ofNatAux, Char.toNat, UInt32.toNat, BitVec.toNat_ofNatLt]

theorem isSpaceChar_toLowerChar (c : Char) : isSpaceChar (toLowerChar c) = isSpaceChar c := by
  by_cases h : 65 ≤ c.toNat ∧ c.toNat ≤ 90
  · have h1 : toLowerChar c = Char.ofNat (c.toNat + 32) := by
      simp only [toLowerChar, if_pos h]
    have h32 : (Char.ofNat (c.toNat + 32)).toNat = c.toNat + 32 :=
      toNat_ofNat_small (by omega)
    have hl : isSpaceChar (Char.ofNat (c.toNat + 32)) = false := by
      simp only [isSpaceChar, h32]
      simp only [Bool.or_eq_false_iff, decide_eq_false_iff_not]
      omega
    have hr : isSpaceChar c = false := by
      simp only [isSpaceChar]
      simp only [Bool.or_eq_false_iff, decide_eq_false_iff_not]
      omega
    rw [h1, hl, hr]
  · rw [toLowerChar, if_neg h]

theorem toLowerChar_toLowerChar (c : Char) : toLowerChar (toLowerChar c) = toLowerChar c := by
  by_cases h : 65 ≤ c.toNat ∧ c.toNat ≤ 90
  · have h1 : toLowerChar c = Char.ofNat (c.toNat + 32) := by
      simp only [toLowerChar, if_pos h]
    have h32 : (Char.ofNat (c.toNat + 32)).toNat = c.toNat + 32 :=
      toNat_ofNat_small (by omega)
    rw [h1]
    rw [toLowerChar, if_neg (by rw [h32]; omega)]
  · have h1 : toLowerChar c = c := by rw [toLowerChar, if_neg h]
    rw [h1]; exact h1

theorem isSpaceChar_comp_toLowerChar : (isSpaceChar ∘ toLowerChar) = isSpaceChar :=
  funext isSpaceChar_toLowerChar

theorem trimSpace_toLowerStr (l : Str) :
    trimSpace (toLowerStr l) = toLowerStr (trimSpace l) := by
  simp only [trimSpace, toLowerStr, List.dropWhile_map, isSpaceChar_comp_toLowerChar,
    ← List.map_reverse]

theorem dropWhile_dropWhile (p : Char → Bool) (l : List Char) :
    (l.dropWhile p).dropWhile p = l.dropWhile p := by
  induction l with
  | nil => rfl
  | cons a t ih =>
    by_cases h : p a
    · rw [List.dropWhile_cons_of_pos h]; exact ih
    · rw [List.dropWhile_cons_of_neg h, List.dropWhile_cons_of_neg h]

theorem dropWhile_eq_self_of_prefix {p : Char → Bool} {x A : List Char}
    (hpre : x <+: A) (hA : A.dropWhile p = A) : x.dropWhile p = x := by
  cases x with
  | nil => rfl
  | cons c t =>
    obtain ⟨rest, hrest⟩ := hpre
    subst hrest
    have hc : ¬ p c = true := by
      intro hc
      rw [List.cons_append, List.dropWhile_cons_of_pos hc] at hA
      have hlen := congrArg List.length hA
      have hle := (List.dropWhile_suffix (l := t ++ rest) p).length_le
      simp only [List.length_cons] at hlen
      omega
    rw [List.dropWhile_cons_of_neg hc]

theorem trimSpace_trimSpace (l : Str) : trimSpace (trimSpace l) = trimSpace l := by
  have hA : (l.dropWhile isSpaceChar).dropWhile isSpaceChar = l.dropWhile isSpaceChar :=
    dropWhile_dropWhile _ _
  have hBpre : ((l.dropWhile isSpaceChar).reverse.dropWhile isSpaceChar).reverse <+:
      l.dropWhile isSpaceChar := by
    have hsuf : (l.dropWhile isSpaceChar).reverse.dropWhile isSpaceChar <:+
        (l.dropWhile isSpaceChar).reverse := List.dropWhile_suffix _
    have := List.reverse_prefix.mpr hsuf
    simpa using this
  have h1 := dropWhile_eq_self_of_prefix hBpre hA
  show trimSpace (((l.dropWhile isSpaceChar).reverse.dropWhile isSpaceChar).reverse) = _
  rw [trimSpace, h1, List.reverse_reverse, dropWhile_dropWhile, trimSpace]

theorem toLowerStr_toLowerStr (l : Str) : toLowerStr (toLowerStr l) = toLowerStr l := by
  simp only [toLowerStr, List.map_map]
  exact List.map_congr_left fun c _ => toLowerChar_toLowerChar c

theorem normStr_normStr (s : Str) : normStr (normStr s) = normStr s := by
  simp only [normStr]
  rw [trimSpace_toLowerStr, trimSpace_trimSpace, toLowerStr_toLowerStr]

theorem assocFind_append_self {F : Type} (reg : Registry F) (key : Str) (f : F)
    (h : assocFind reg key = none) : assocFind (reg ++ [(key, f)]) key = some f := by
  induction reg with
  | nil => simp [assocFind]
  | cons kv rest ih =>
    rw [assocFind] at h
    by_cases hk : kv.1 = key
    · rw [if_pos hk] at h; exact absurd h (by simp)
    · rw [if_neg hk] at h
      show assocFind ((kv.1, kv.2) :: (rest ++ [(key, f)])) key = some f
      rw [assocFind, if_neg hk]
      exact ih h

/-- C9: normalization of each of the three identity types (SchemaVersion,
EventSource, EventType) is idempotent, and pure: its result depends only on
the argument value. -/
theorem normalize_idempotent_and_pure (v : Str) :
    SchemaVersion.Normalize (SchemaVersion.Normalize v) = SchemaVersion.Normalize v ∧
    EventSource.Normalize (EventSource.Normalize v) = EventSource.Normalize v ∧
    EventType.Normalize (EventType.Normalize v) = EventType.Normalize v ∧
    (∀ w : Str, v = w →
      SchemaVersion.Normalize v = SchemaVersion.Normalize w ∧
      EventSource.Normalize v = EventSource.Normalize w ∧
      EventType.Normalize v = EventType.Normalize w) :=
  ⟨normStr_normStr v, normStr_normStr v, normStr_normStr v,
   fun _ h => ⟨congrArg _ h, congrArg _ h, congrArg _ h⟩⟩

/-- Witness for C9 at the concrete identity value `" Ab "`. -/
theorem normalize_idempotent_and_pure_witness :
    SchemaVersion.Normalize (SchemaVersion.Normalize " Ab ".data) =
      SchemaVersion.Normalize " Ab ".data ∧
    SchemaVersion.Normalize " Ab ".data = SchemaVersion.Normalize " Ab ".data :=
  ⟨(normalize_idempotent_and_pure " Ab ".data).1,
   ((normalize_idempotent_and_pure " Ab ".data).2.2.2 " Ab ".data rfl).1⟩

/-- C10: for every registry state and every input triple,
`ExistsEventFactory` returns `true` exactly when `GetEventFactory` on the
same state returns a factory without error (so it returns `false` exactly
where `GetEventFactory` errors, in particular on inputs empty after
normalization); `ExistsEventFactory` is `Bool`-valued and total, so it
never returns an error. -/
theorem exists_iff_get_ok {F : Type} (reg : Registry F)
    (v : SchemaVersion) (s : EventSource) (t : EventType) :
    ExistsEventFactory reg v s t = true ↔
      ∃ f, GetEventFactory reg v s t = .ok f := by
  unfold ExistsEventFactory GetEventFactory
  by_cases h1 : SchemaVersion.IsEmpty (SchemaVersion.Normalize v) = true
  · simp [h1]
  · by_cases h2 : EventSource.IsEmpty (EventSource.Normalize s) = true
    · simp [h1, h2]
    · by_cases h3 : EventType.IsEmpty (EventType.Normalize t) = true
      · simp [h1, h2, h3]
      · cases haf : assocFind reg (buildEventFactoryKey (SchemaVersion.Normalize v)
          (EventSource.Normalize s) (EventType.Normalize t)) <;>
          simp [h1, h2, h3, haf]

/-- C4: after `RegisterEventFactory` succeeds for a triple with factory
`f`, a second registration for the same triple with `g` fails with the
duplicate-key error and leaves the registry unchanged, and
`GetEventFactory` still returns `f`. -/
theorem register_twice_duplicate {F : Type} (reg reg1 : Registry F)
    (v : SchemaVersion) (s : EventSource) (t : EventType) (f g : F)
    (h : RegisterEventFactory reg v s t (some f) = (.ok (), reg1)) :
    RegisterEventFactory reg1 v s t (some g) =
      (.error (.duplicateKey (buildEventFactoryKey (SchemaVersion.Normalize v)
        (EventSource.Normalize s) (EventType.Normalize t))), reg1) ∧
    GetEventFactory reg1 v s t = .ok f := by
  by_cases h1 : SchemaVersion.IsEmpty (SchemaVersion.Normalize v) = true
  · simp [RegisterEventFactory, h1] at h
  · by_cases h2 : EventSource.IsEmpty (EventSource.Normalize s) = true
    · simp [RegisterEventFactory, h1, h2] at h
    · by_cases h3 : EventType.IsEmpty (EventType.Normalize t) = true
      · simp [RegisterEventFactory, h1, h2, h3] at h
      · cases haf : assocFind reg (buildEventFactoryKey (SchemaVersion.Normalize v)
          (EventSource.Normalize s) (EventType.Normalize t)) with
        | some f0 => simp [RegisterEventFactory, h1, h2, h3, haf] at h
        | none =>
          simp only [RegisterEventFactory, h1, h2, h3, haf, if_false, Bool.false_eq_true,
            if_neg, Prod.mk.injEq] at h
          have hreg : reg1 = reg ++ [(buildEventFactoryKey (SchemaVersion.Normalize v)
              (EventSource.Normalize s) (EventType.Normalize t), f)] := by
            exact h.2.symm
          have hfind := assocFind_append_self reg _ f haf
          constructor
          · simp [RegisterEventFactory, h1, h2, h3, hreg, hfind]
          · simp [GetEventFactory, h1, h2, h3, hreg, hfind]

/-- Witness for C4: registering the triple `(v1, src, user.created)` twice
on the empty registry, with factories 0 and 1. -/
theorem register_twice_duplicate_witness :
    RegisterEventFactory (F := Nat)
        (("v1".data ++ [Char.ofNat 124] ++ "src".data ++ [Char.ofNat 124] ++
          "user.created".data, 0) :: [])
        "v1".data "src".data "user.created".data (some 1) =
      (.error (.duplicateKey (buildEventFactoryKey (SchemaVersion.Normalize "v1".data)
        (EventSource.Normalize "src".data) (EventType.Normalize "user.created".data))),
        (("v1".data ++ [Char.ofNat 124] ++ "src".data ++ [Char.ofNat 124] ++
          "user.created".data, 0) :: [])) ∧
    GetEventFactory (("v1".data ++ [Char.ofNat 124] ++ "src".data ++ [Char.ofNat 124] ++
          "user.created".data, 0) :: [])
        "v1".data "src".data "user.created".data = .ok 0 :=
  register_twice_duplicate [] _ "v1".data "src".data "user.created".data 0 1 (by decide)

theorem IsEmpty_Normalize_version (v : Str) :
    SchemaVersion.IsEmpty (SchemaVersion.Normalize v) = SchemaVersion.IsEmpty v := by
  simp only [SchemaVersion.IsEmpty, SchemaVersion.Normalize, normStr_normStr]

theorem IsEmpty_Normalize_source (v : Str) :
    EventSource.IsEmpty (EventSource.Normalize v) = EventSource.IsEmpty v := by
  simp only [EventSource.IsEmpty, EventSource.Normalize, normStr_normStr]

theorem IsEmpty_Normalize_type (v : Str) :
    EventType.IsEmpty (EventType.Normalize v) = EventType.IsEmpty v := by
  simp only [EventType.IsEmpty, EventType.Normalize, normStr_normStr]

theorem validate_time (now : Int) (m : Metadata) (t : Int)
    (hid : Metadata.identityOk m = true) :
    Metadata.Validate now { m with eventTime := t } =
      if t ≤ 0 then .error .nonPositiveTime
      else if t > now + maxFutureSecs then .error .tooFarFuture
      else .ok ({ m with eventTime := t }.Normalize) := by
  simp only [Metadata.identityOk, Bool.and_eq_true, Bool.not_eq_true'] at hid
  obtain ⟨⟨⟨hv, hi⟩, hs⟩, ht⟩ := hid
  simp [Metadata.Validate, Metadata.Normalize, IsEmpty_Normalize_version,
    IsEmpty_Normalize_source, IsEmpty_Normalize_type, hv, hi, hs, ht]

/-- C3: with the validator's clock at `now` (a Unix timestamp, hence
nonnegative) and valid identity fields, metadata with `eventTime = now+299`
validates, `now+301` fails the skew check, `0` and `-1` fail the
positivity check, and every positive past timestamp validates (there is
no lower bound on the age of an event). -/
theorem clock_skew_boundary (now : Int) (m : Metadata)
    (hnow : 0 ≤ now) (hid : Metadata.identityOk m = true) :
    (∃ m2, Metadata.Validate now { m with eventTime := now + 299 } = .ok m2) ∧
    Metadata.Validate now { m with eventTime := now + 301 } = .error .tooFarFuture ∧
    Metadata.Validate now { m with eventTime := 0 } = .error .nonPositiveTime ∧
    Metadata.Validate now { m with eventTime := -1 } = .error .nonPositiveTime ∧
    (∀ t : Int, 0 < t → t ≤ now →
      ∃ m2, Metadata.Validate now { m with eventTime := t } = .ok m2) := by
  have h300 : maxFutureSecs = 300 := rfl
  refine ⟨?_, ?_, ?_, ?_, ?_⟩
  · rw [validate_time now m _ hid, if_neg (by omega), if_neg (by rw [h300]; omega)]
    exact ⟨_, rfl⟩
  · rw [validate_time now m _ hid, if_neg (by omega), if_pos (by rw [h300]; omega)]
  · rw [validate_time now m _ hid, if_pos (by omega)]
  · rw [validate_time now m _ hid, if_pos (by omega)]
  · intro t h1 h2
    rw [validate_time now m _ hid, if_neg (by omega), if_neg (by rw [h300]; omega)]
    exact ⟨_, rfl⟩

/-- Witness for C3 at `now = 1000` with concrete identity fields. -/
theorem clock_skew_boundary_witness :
    (∃ m2, Metadata.Validate 1000
      { schemaVersion := "v1".data, eventId := "id1".data, eventSource := "src".data,
        eventType := "user.created".data, eventTime := 1000 + 299 } = .ok m2) ∧
    Metadata.Validate 1000
      { schemaVersion := "v1".data, eventId := "id1".data, eventSource := "src".data,
        eventType := "user.created".data, eventTime := 1000 + 301 } =
      .error .tooFarFuture := by
  have h := clock_skew_boundary 1000
    { schemaVersion := "v1".data, eventId := "id1".data, eventSource := "src".data,
      eventType := "user.created".data, eventTime := 7 } (by decide) (by decide)
  exact ⟨h.1, h.2.1⟩

theorem assocFind_append {F : Type} (xs ys : List (Str × F)) (k : Str) :
    assocFind (xs ++ ys) k =
      match assocFind xs k with
      | some v => some v
      | none => assocFind ys k := by
  induction xs with
  | nil => rfl
  | cons kv rest ih =>
    by_cases h : kv.1 = k
    · show assocFind ((kv.1, kv.2) :: (rest ++ ys)) k = _
      rw [assocFind, if_pos h]
      show _ = (match assocFind ((kv.1, kv.2) :: rest) k with
        | some v => some v | none => assocFind ys k)
      rw [assocFind, if_pos h]
    · show assocFind ((kv.1, kv.2) :: (rest ++ ys)) k = _
      rw [assocFind, if_neg h]
      show _ = (match assocFind ((kv.1, kv.2) :: rest) k with
        | some v => some v | none => assocFind ys k)
      rw [assocFind, if_neg h]
      exact ih

theorem assocFind_ite_singleton_ne {F : Type} (c : Prop) [Decidable c]
    (k k2 : Str) (v : F) (h : ¬ k = k2) :
    assocFind (if c then [(k, v)] else []) k2 = none := by
  split <;> simp [assocFind, h]

theorem assocFind_ite_singleton_self {F : Type} (c : Prop) [Decidable c]
    (k : Str) (v : F) :
    assocFind (if c then [(k, v)] else []) k = if c then some v else none := by
  split <;> simp [assocFind]

theorem assocFind_ite_nil_ne {F : Type} (c : Prop) [Decidable c]
    (k k2 : Str) (v : F) (h : ¬ k = k2) :
    assocFind (if c then [] else [(k, v)]) k2 = none := by
  split <;> simp [assocFind, h]

theorem assocFind_ite_nil_self {F : Type} (c : Prop) [Decidable c]
    (k : Str) (v : F) :
    assocFind (if c then [] else [(k, v)]) k = if c then none else some v := by
  split <;> simp [assocFind]

/-- C8: the header mapping derived from a metadata value contains exactly
the five documented entries under their presence conditions — schema
version, event id, event source and event type each when non-empty, and
the decimal event time when positive — and nothing else. -/
theorem header_mapping (m : Metadata) :
    assocFind (metadataToHeaders (some m)) HeaderSchemaVersion =
      (if SchemaVersion.IsEmpty m.schemaVersion then none else some m.schemaVersion) ∧
    assocFind (metadataToHeaders (some m)) HeaderEventId =
      (if m.eventId.isEmpty then none else some m.eventId) ∧
    assocFind (metadataToHeaders (some m)) HeaderEventSource =
      (if EventSource.IsEmpty m.eventSource then none else some m.eventSource) ∧
    assocFind (metadataToHeaders (some m)) HeaderEventType =
      (if EventType.IsEmpty m.eventType then none else some m.eventType) ∧
    assocFind (metadataToHeaders (some m)) HeaderEventTime =
      (if 0 < m.eventTime then some (intDecStr m.eventTime) else none) ∧
    (∀ p ∈ metadataToHeaders (some m),
      p.1 = HeaderSchemaVersion ∨ p.1 = HeaderEventId ∨ p.1 = HeaderEventSource ∨
      p.1 = HeaderEventType ∨ p.1 = HeaderEventTime) := by
  refine ⟨?_, ?_, ?_, ?_, ?_, ?_⟩
  · by_cases hc : SchemaVersion.IsEmpty m.schemaVersion = true <;>
      simp [metadataToHeaders, assocFind, assocFind_append, assocFind_ite_singleton_self,
        assocFind_ite_singleton_ne, assocFind_ite_nil_self, assocFind_ite_nil_ne, hc,
        (by decide : ¬ HeaderEventId = HeaderSchemaVersion),
        (by decide : ¬ HeaderEventSource = HeaderSchemaVersion),
        (by decide : ¬ HeaderEventType = HeaderSchemaVersion),
        (by decide : ¬ HeaderEventTime = HeaderSchemaVersion)]
  · by_cases hc : m.eventId.isEmpty = true <;>
      simp [metadataToHeaders, assocFind, assocFind_append, assocFind_ite_singleton_self,
        assocFind_ite_singleton_ne, assocFind_ite_nil_self, assocFind_ite_nil_ne, hc,
        (by decide : ¬ HeaderSchemaVersion = HeaderEventId),
        (by decide : ¬ HeaderEventSource = HeaderEventId),
        (by decide : ¬ HeaderEventType = HeaderEventId),
        (by decide : ¬ HeaderEventTime = HeaderEventId)]
  · by_cases hc : EventSource.IsEmpty m.eventSource = true <;>
      simp [metadataToHeaders, assocFind, assocFind_append, assocFind_ite_singleton_self,
        assocFind_ite_singleton_ne, assocFind_ite_nil_self, assocFind_ite_nil_ne, hc,
        (by decide : ¬ HeaderSchemaVersion = HeaderEventSource),
        (by decide : ¬ HeaderEventId = HeaderEventSource),
        (by decide : ¬ HeaderEventType = HeaderEventSource),
        (by decide : ¬ HeaderEventTime = HeaderEventSource)]
  · by_cases hc : EventType.IsEmpty m.eventType = true <;>
      simp [metadataToHeaders, assocFind, assocFind_append, assocFind_ite_singleton_self,
        assocFind_ite_singleton_ne, assocFind_ite_nil_self, assocFind_ite_nil_ne, hc,
        (by decide : ¬ HeaderSchemaVersion = HeaderEventType),
        (by decide : ¬ HeaderEventId = HeaderEventType),
        (by decide : ¬ HeaderEventSource = HeaderEventType),
        (by decide : ¬ HeaderEventTime = HeaderEventType)]
  · by_cases hc : 0 < m.eventTime <;>
      simp [metadataToHeaders, assocFind, assocFind_append, assocFind_ite_singleton_self,
        assocFind_ite_singleton_ne, assocFind_ite_nil_self, assocFind_ite_nil_ne, hc,
        (by decide : ¬ HeaderSchemaVersion = HeaderEventTime),
        (by decide : ¬ HeaderEventId = HeaderEventTime),
        (by decide : ¬ HeaderEventSource = HeaderEventTime),
        (by decide : ¬ HeaderEventType = HeaderEventTime)]
  · intro p hp
    simp only [metadataToHeaders, List.mem_append] at hp
    rcases hp with ((((h | h) | h) | h) | h) <;>
      (revert h; split <;> intro h <;> simp at h) <;> simp [h]

/-- Witness for C8 at a concrete metadata value, reading back one present
entry and checking its key is among the five documented ones. -/
theorem header_mapping_witness :
    assocFind (metadataToHeaders (some
      { schemaVersion := "v1".data, eventId := "id1".data, eventSource := "src".data,
        eventType := "user.created".data, eventTime := 1299 })) HeaderEventTime =
      (if (0 : Int) < 1299 then some (intDecStr 1299) else none) ∧
    (∀ p ∈ metadataToHeaders (some
      { schemaVersion := "v1".data, eventId := "id1".data, eventSource := "src".data,
        eventType := "user.created".data, eventTime := 1299 }),
      p.1 = HeaderSchemaVersion ∨ p.1 = HeaderEventId ∨ p.1 = HeaderEventSource ∨
      p.1 = HeaderEventType ∨ p.1 = HeaderEventTime) := by
  have h := header_mapping
    { schemaVersion := "v1".data, eventId := "id1".data, eventSource := "src".data,
      eventType := "user.created".data, eventTime := 1299 }
  exact ⟨h.2.2.2.2.1, h.2.2.2.2.2⟩

theorem Normalize_Normalize (m : Metadata) : m.Normalize.Normalize = m.Normalize := by
  simp [Metadata.Normalize, SchemaVersion.Normalize, EventSource.Normalize,
    EventType.Normalize, normStr_normStr, trimSpace_trimSpace]

theorem Validate_ok_iff (now : Int) (m m1 : Metadata) :
    Metadata.Validate now m = .ok m1 ↔
      m1 = m.Normalize ∧
      SchemaVersion.IsEmpty m.Normalize.schemaVersion = false ∧
      m.Normalize.eventId.isEmpty = false ∧
      EventSource.IsEmpty m.Normalize.eventSource = false ∧
      EventType.IsEmpty m.Normalize.eventType = false ∧
      ¬ m.Normalize.eventTime ≤ 0 ∧
      ¬ m.Normalize.eventTime > now + maxFutureSecs := by
  simp only [Metadata.Validate]
  split_ifs with h1 h2 h3 h4 h5 h6 <;> simp_all
  exact eq_comm

/-- C1: round trip.  For an event whose `Validate` succeeds (leaving the
event as it is, i.e. the published, already-normalized form), whose
metadata is present and passes metadata validation, and whose identity
triple has a registered factory producing a blank instance of the event's
concrete type which the faithful payload codec repopulates, encoding via
the publisher's envelope construction and then decoding returns the event
unchanged, `eventTime` included (the conclusion is equality of whole
events, every field equal). -/
theorem encode_decode_round_trip {E P : Type} (impl : EventImpl E)
    (marshalE : E → P) (unmarshalE : P → E → Except Str E)
    (reg : Registry (EventFactory E)) (now : Int) (e e0 : E) (m : Metadata)
    (hval : impl.validate now e = .ok e)
    (hmeta : impl.metadataOf e = some m)
    (hmval : Metadata.Validate now m = .ok m)
    (hwith : impl.withMeta e m = e)
    (hfac : GetEventFactory reg m.schemaVersion m.eventSource m.eventType = .ok (.ok e0))
    (hun : unmarshalE (marshalE e) e0 = .ok e) :
    publishEncode impl marshalE now (some e) = .ok ⟨m, marshalE e⟩ ∧
    (decodeEvent impl unmarshalE reg now
      (envelopeToBytes ⟨m, marshalE e⟩)).1 = .ok e := by
  constructor
  · simp [publishEncode, hval, hmeta, hmval, hwith]
  · simp [decodeEvent, envelopeToBytes, GetEventFactoryS, hmval, hfac, hun, hval, hmeta]

/-- Witness for C1 with the concrete event `⟨mdW, 7⟩` over the concrete
registry `regW` at `now = 1000`. -/
theorem encode_decode_round_trip_witness :
    publishEncode mImpl mMarshal 1000 (some { meta := mdW, n := 7 }) =
      .ok { metadata := mdW, payload := { meta := mdW, n := 7 } } ∧
    (decodeEvent mImpl mUnmarshal regW 1000
      (envelopeToBytes { metadata := mdW, payload := { meta := mdW, n := 7 } })).1 =
      .ok { meta := mdW, n := 7 } :=
  encode_decode_round_trip mImpl mMarshal mUnmarshal regW 1000
    { meta := mdW, n := 7 } e0W mdW (by decide) (by decide) (by decide) (by decide)
    (by decide) (by decide)

theorem decode_registry_frame {E P : Type} (impl : EventImpl E)
    (unmarshalE : P → E → Except Str E) (reg : Registry (EventFactory E))
    (now : Int) (data : Bytes P) :
    (decodeEvent impl unmarshalE reg now data).2 = reg := by
  unfold decodeEvent GetEventFactoryS
  repeat' split
  all_goals simp_all

/-- C6: decoding an envelope whose validated identity triple has no
registered factory fails with the factory-not-found error, and the decode
path never modifies the registry (for any input whatsoever the registry
component of the result is the input registry). -/
theorem decode_unknown_type {E P : Type} (impl : EventImpl E)
    (unmarshalE : P → E → Except Str E) (reg : Registry (EventFactory E))
    (now : Int) (md md1 : Metadata) (p : P)
    (hv : Metadata.Validate now md = .ok md1)
    (hnf : assocFind reg (buildEventFactoryKey md1.schemaVersion md1.eventSource
      md1.eventType) = none) :
    decodeEvent impl unmarshalE reg now (.envelope (some md) (some p)) =
      (.error (.factoryLookupFailed (.notFound (buildEventFactoryKey md1.schemaVersion
        md1.eventSource md1.eventType))), reg) ∧
    (∀ data : Bytes P, (decodeEvent impl unmarshalE reg now data).2 = reg) := by
  obtain ⟨hm1, hsv, hid, hsrc, htyp, ht0, ht1⟩ := (Validate_ok_iff now md md1).mp hv
  have hnv : SchemaVersion.Normalize md1.schemaVersion = md1.schemaVersion := by
    rw [hm1]; simp [Metadata.Normalize, SchemaVersion.Normalize, normStr_normStr]
  have hns : EventSource.Normalize md1.eventSource = md1.eventSource := by
    rw [hm1]; simp [Metadata.Normalize, EventSource.Normalize, normStr_normStr]
  have hnt : EventType.Normalize md1.eventType = md1.eventType := by
    rw [hm1]; simp [Metadata.Normalize, EventType.Normalize, normStr_normStr]
  have hget : GetEventFactory reg md1.schemaVersion md1.eventSource md1.eventType =
      .error (.notFound (buildEventFactoryKey md1.schemaVersion md1.eventSource
        md1.eventType)) := by
    rw [GetEventFactory]
    rw [hnv, hns, hnt]
    rw [← hm1] at hsv hsrc htyp
    simp [hsv, hsrc, htyp, hnf]
  constructor
  · simp [decodeEvent, GetEventFactoryS, hv, hget]
  · intro data
    exact decode_registry_frame impl unmarshalE reg now data

/-- Witness for C6: decoding a valid envelope over the empty registry. -/
theorem decode_unknown_type_witness :
    decodeEvent mImpl mUnmarshal ([] : Registry (EventFactory MEvent)) 1000
      (.envelope (some mdW) (some { meta := mdW, n := 7 })) =
      (.error (.factoryLookupFailed (.notFound (buildEventFactoryKey mdW.schemaVersion
        mdW.eventSource mdW.eventType))), ([] : Registry (EventFactory MEvent))) ∧
    (∀ data : Bytes MEvent,
      (decodeEvent mImpl mUnmarshal ([] : Registry (EventFactory MEvent)) 1000 data).2 =
        ([] : Registry (EventFactory MEvent))) :=
  decode_unknown_type mImpl mUnmarshal [] 1000 mdW mdW
    { meta := mdW, n := 7 } (by decide) (by decide)

/-- C5: when decode reaches the metadata cross-check (payload deserializes
cleanly, the instance validates, its metadata is present) and the
instance's self-reported metadata agrees with the envelope metadata on
schema version, source and type, then a differing event id fails with the
eventId-mismatch error, while agreement on the id makes decode succeed
regardless of the event times — `eventTime` is never cross-checked. -/
theorem decode_eventId_mismatch {E P : Type} (impl : EventImpl E)
    (unmarshalE : P → E → Except Str E) (reg : Registry (EventFactory E))
    (now : Int) (md md1 : Metadata) (p : P) (e0 ev ev1 : E) (em : Metadata)
    (hv : Metadata.Validate now md = .ok md1)
    (hget : GetEventFactory reg md1.schemaVersion md1.eventSource md1.eventType =
      .ok (.ok e0))
    (hun : unmarshalE p e0 = .ok ev)
    (hval : impl.validate now ev = .ok ev1)
    (hmeta : impl.metadataOf ev1 = some em)
    (hsv : em.schemaVersion = md1.schemaVersion)
    (hsrc : em.eventSource = md1.eventSource)
    (htyp : em.eventType = md1.eventType) :
    (em.eventId ≠ md1.eventId →
      (decodeEvent impl unmarshalE reg now (.envelope (some md) (some p))).1 =
        .error .eventIdMismatch) ∧
    (em.eventId = md1.eventId →
      (decodeEvent impl unmarshalE reg now (.envelope (some md) (some p))).1 =
        .ok ev1) := by
  constructor
  · intro hne
    simp [decodeEvent, GetEventFactoryS, hv, hget, hun, hval, hmeta, hsv, hsrc, htyp, hne]
  · intro heq
    simp [decodeEvent, GetEventFactoryS, hv, hget, hun, hval, hmeta, hsv, hsrc, htyp, heq]

/-- Witness for C5: over `regW`, an envelope with metadata `mdW` whose
payload self-reports event id `id2` (and a different event time) fails with
the eventId mismatch; the same payload with the matching id `id1` but a
still-different event time decodes successfully. -/
theorem decode_eventId_mismatch_witness :
    (decodeEvent mImpl mUnmarshal regW 1000
      (.envelope (some mdW) (some ⟨emW2, 3⟩))).1 = .error .eventIdMismatch ∧
    (decodeEvent mImpl mUnmarshal regW 1000
      (.envelope (some mdW) (some ⟨emW1, 3⟩))).1 = .ok ⟨emW1, 3⟩ :=
  ⟨(decode_eventId_mismatch mImpl mUnmarshal regW 1000 mdW mdW ⟨emW2, 3⟩ e0W
      ⟨emW2, 3⟩ ⟨emW2, 3⟩ emW2
      (by decide) (by decide) (by decide) (by decide) (by decide)
      (by decide) (by decide) (by decide)).1 (by decide),
   (decode_eventId_mismatch mImpl mUnmarshal regW 1000 mdW mdW ⟨emW1, 3⟩ e0W
      ⟨emW1, 3⟩ ⟨emW1, 3⟩ emW1
      (by decide) (by decide) (by decide) (by decide) (by decide)
      (by decide) (by decide) (by decide)).2 (by decide)⟩

/-- C2: the wrapped subscription callback never propagates a panic — for
every delivery it returns normally — and whenever its body (application
handler included) raises a panic, the returned value is the error that
carries the recovered panic information and the captured stack trace. -/
theorem wrap_contains_fault {E P : Type} (impl : EventImpl E)
    (unmarshalE : P → E → Except Str E) (reg : Registry (EventFactory E))
    (now : Int) (handler : Handler E) (stack : Str) :
    (∀ delivery : Option (Delivery P),
      ∃ r, wrapHandler impl unmarshalE reg now handler stack delivery = .ok r) ∧
    (∀ (delivery : Option (Delivery P)) (info : Str),
      wrapBody impl unmarshalE reg now handler delivery = .panicked info →
      wrapHandler impl unmarshalE reg now handler stack delivery =
        .ok (some (.handlerFault info stack))) := by
  constructor
  · intro d
    cases h : wrapBody impl unmarshalE reg now handler d with
    | ok r => exact ⟨r, by simp [wrapHandler, h]⟩
    | panicked info => exact ⟨some (.handlerFault info stack), by simp [wrapHandler, h]⟩
  · intro d info h
    simp [wrapHandler, h]

/-- Witness for C2: a handler that panics with `boom` on a delivery that
decodes successfully yields the contained fault carrying the panic info
and the stack trace. -/
theorem wrap_contains_fault_witness :
    wrapHandler mImpl mUnmarshal regW 1000 panHandlerW "stack".data (some dJsonW) =
      .ok (some (.handlerFault "boom".data "stack".data)) :=
  (wrap_contains_fault mImpl mUnmarshal regW 1000 panHandlerW "stack".data).2
    (some dJsonW) "boom".data (by decide)

/-- C7: for a non-nil delivery with non-empty topic and body, a content
type whose trimmed, lowercased form does not start with
`application/json` is rejected with the unsupported-content-type error
(no decode is attempted: the result is this error whatever the registry
or body), while one whose normalized form does start with
`application/json` passes the gate and the callback proceeds to the
decode-and-handle stage. -/
theorem content_type_gate {E P : Type} (impl : EventImpl E)
    (unmarshalE : P → E → Except Str E) (reg : Registry (EventFactory E))
    (now : Int) (handler : Handler E) (d : Delivery P)
    (ht : (trimSpace d.topic).isEmpty = false)
    (hb : isEmptyBytes d.body = false) :
    (startsWith ContentTypeJson (toLowerStr (trimSpace d.contentType)) = false →
      ∀ stack, wrapHandler impl unmarshalE reg now handler stack (some d) =
        .ok (some (.unsupportedContentType (toLowerStr (trimSpace d.contentType))))) ∧
    (startsWith ContentTypeJson (toLowerStr (trimSpace d.contentType)) = true →
      wrapBody impl unmarshalE reg now handler (some d) =
        decodeAndHandle impl unmarshalE reg now handler (trimSpace d.topic) d.body) := by
  constructor
  · intro hct stack
    simp [wrapHandler, wrapBody, ht, hb, hct]
  · intro hct
    simp [wrapBody, ht, hb, hct]

/-- Witness for C7: `text/plain` is rejected before decode;
`application/json; charset=utf-8` passes the gate. -/
theorem content_type_gate_witness :
    wrapHandler mImpl mUnmarshal regW 1000 okHandlerW "stack".data (some dPlainW) =
      .ok (some (.unsupportedContentType
        (toLowerStr (trimSpace dPlainW.contentType)))) ∧
    wrapBody mImpl mUnmarshal regW 1000 okHandlerW (some dJsonCsW) =
      decodeAndHandle mImpl mUnmarshal regW 1000 okHandlerW
        (trimSpace dJsonCsW.topic) dJsonCsW.body :=
  ⟨(content_type_gate mImpl mUnmarshal regW 1000 okHandlerW dPlainW
      (by decide) (by decide)).1 (by decide) "stack".data,
   (content_type_gate mImpl mUnmarshal regW 1000 okHandlerW dJsonCsW
      (by decide) (by decide)).2 (by decide)⟩

end Ebus
